import Mathlib

/-!
Verification development for the page_control_mcp repository.

The correlation core lives in `mcp-server/page-control-commands.js`
(shared by the SDK/STDIO and SSE transports of the newer server) and a
near-duplicate legacy implementation lives in
`mcp-server/page-control-mcp.js`.  JavaScript `Map`s are modelled as
association lists with JS `Map.set` semantics (in-place overwrite of an
existing key, append otherwise).  Promise continuations are modelled by a
settlement log: invoking `resolve`/`reject` appends one entry keyed by the
requestId.  The JS event loop is single-threaded, so an interleaving of
handlers is a sequence of atomic steps (`coreStep`).
-/

namespace PageControl

/-! ### Association-list model of a JS Map -/

/-- Lookup of the (first) entry with the given key, `Map.get`. -/
def mapGet {κ ν : Type} [DecidableEq κ] (k : κ) : List (κ × ν) → Option ν
  | [] => none
  | (k', v) :: rest => if k' = k then some v else mapGet k rest

/-- `Map.set`: overwrite in place when the key exists, append otherwise. -/
def mapSet {κ ν : Type} [DecidableEq κ] (k : κ) (v : ν) : List (κ × ν) → List (κ × ν)
  | [] => [(k, v)]
  | (k', v') :: rest => if k' = k then (k, v) :: rest else (k', v') :: mapSet k v rest

/-- `Map.delete`: remove every entry with the given key. -/
def mapDelete {κ ν : Type} [DecidableEq κ] (k : κ) (m : List (κ × ν)) : List (κ × ν) :=
  m.filter (fun e => decide (e.1 ≠ k))

/-- Number of entries with the given key (used to count settlements in a log). -/
def countKey {κ ν : Type} [DecidableEq κ] (k : κ) (l : List (κ × ν)) : Nat :=
  (l.filter (fun e => decide (e.1 = k))).length

/-- The keys of the association list are pairwise distinct (true of every
state produced from a JS `Map`). -/
def KeysNodup {κ ν : Type} (m : List (κ × ν)) : Prop :=
  (m.map Prod.fst).Nodup

instance {κ ν : Type} [DecidableEq κ] (m : List (κ × ν)) : Decidable (KeysNodup m) :=
  inferInstanceAs (Decidable (m.map Prod.fst).Nodup)

/-! ### Data model -/

/-- JSON-ish values as they matter to the core: the primitives, plus an
opaque constructor for objects/arrays (always truthy in JS), identified by
a tag so that equality is decidable. -/
inductive JValue where
  | jnull
  | jbool (b : Bool)
  | jnum (n : Int)
  | jstr (s : String)
  | jobject (tag : Nat)
deriving DecidableEq

/-- JS truthiness of a value. -/
def JValue.truthy : JValue → Bool
  | .jnull => false
  | .jbool b => b
  | .jnum n => n != 0
  | .jstr s => s != ""
  | .jobject _ => true

/-- Truthiness of an optional string field (`undefined` and `""` are falsy). -/
def strTruthy : Option String → Bool
  | none => false
  | some s => s != ""

/-- Reply envelope sent page -> Reply Router:
`{type:"response", pageId, requestId, result?, error?}`. -/
structure ReplyEnvelope where
  pageId : String
  requestId : Nat
  result : Option JValue
  error : Option String
deriving DecidableEq

/-- Outcome delivered to a caller's promise.  `resolvedEnvelope` records the
`data.result || data` fallback where the whole envelope is passed. -/
inductive SettleOutcome where
  | resolvedResult (v : JValue)
  | resolvedEnvelope (env : ReplyEnvelope)
  | rejected (msg : String)
deriving DecidableEq

/-- One pending entry of the correlation table
(`pendingRequests.set(requestId, {resolve, reject, method, timestamp})`);
the continuations are modelled by the settlement log of `CoreState`. -/
structure PendingRecord where
  method : String
  timestamp : Nat
deriving DecidableEq

/-- State of the correlation core of `page-control-commands.js`:
the `pendingRequests` map, the armed per-request `setTimeout` timers
(requestId -> absolute fire time = creation time + 30000), and the log of
promise settlements (requestId, outcome) in the order they happened. -/
structure CoreState where
  pending : List (Nat × PendingRecord)
  timers : List (Nat × Nat)
  log : List (Nat × SettleOutcome)
deriving DecidableEq

/-- A live page connection as the core sees it: whether
`readyState === WebSocket.OPEN`, and whether `ws.send` would throw
synchronously (e.g. transport already closed), with the thrown message. -/
structure PageConn where
  isOpen : Bool
  sendThrows : Bool
  throwMessage : String
deriving DecidableEq

/-- `modification = {selector, operation, value}` of `modify_page`. -/
structure Modification where
  selector : String
  operation : String
  value : String
deriving DecidableEq

/-- The `params` member of a command envelope, one shape per tool. -/
inductive CommandParams where
  | selectorParams (selector : String)
  | modificationParams (modification : Modification)
  | codeParams (code : String)
deriving DecidableEq

/-- Command envelope sent Dispatcher -> page: `{command, params, id}`. -/
structure CommandEnvelope where
  command : String
  params : CommandParams
  id : Nat
deriving DecidableEq

/-! ### Shared command module (`page-control-commands.js`) -/

/-- The error message of the `PageNotConnected` throw:
`Page "<id>" is not connected. Currently connected pages: <list or none>`
(identical text in the shared module and in the legacy server). -/
def notConnectedMessage (pageId : String) (pages : List String) : String :=
  "Page \"" ++ pageId ++ "\" is not connected. Currently connected pages: " ++
    (if 0 < pages.length then String.intercalate ", " pages else "none")

/-- Outcome of a dispatch through the shared module. -/
inductive DispatchOutcome where
  /-- synchronous `throw new Error(...)` before any correlation-table write -/
  | notConnected (message : String)
  /-- `ws.send` threw; the catch block rolled back and rejected the promise -/
  | sendFailed (message : String)
  /-- the command envelope was sent; the promise stays pending -/
  | dispatched (cmd : CommandEnvelope)
deriving DecidableEq

/-- Common body of `executeQueryPage` / `executeModifyPage` /
`executeRunSnippet` (the three functions are line-for-line identical up to
the method name and the `params` shape).  `rid` stands for the drawn
`Math.floor(Math.random() * 1000000)` and `now` for `Date.now()`.
The `broadcastToPages` calls of the source only touch page sockets, never
the correlation state; they are modelled separately (see
`broadcastToPages` below). -/
def executeCommand (method : String) (params : CommandParams) (pageId : String)
    (rid now : Nat) (activePages : List (String × PageConn)) (s : CoreState) :
    DispatchOutcome × CoreState :=
  match mapGet pageId activePages with
  | none =>
      (.notConnected (notConnectedMessage pageId (activePages.map Prod.fst)), s)
  | some ws =>
      -- setTimeout(... , 30000); pendingRequests.set(requestId, {...})
      let s1 : CoreState :=
        { s with pending := mapSet rid ⟨method, now⟩ s.pending,
                 timers := mapSet rid (now + 30000) s.timers }
      if ws.sendThrows then
        -- catch: pendingRequests.delete(requestId); clearTimeout(timeout); reject(error)
        (.sendFailed ws.throwMessage,
         { pending := mapDelete rid s1.pending,
           timers := mapDelete rid s1.timers,
           log := s1.log ++ [(rid, .rejected ws.throwMessage)] })
      else
        (.dispatched ⟨method, params, rid⟩, s1)

/-- `executeQueryPage(pageId, selector, activePages)`. -/
def executeQueryPage (pageId selector : String) (rid now : Nat)
    (activePages : List (String × PageConn)) (s : CoreState) :
    DispatchOutcome × CoreState :=
  executeCommand "query_page" (.selectorParams selector) pageId rid now activePages s

/-- `executeModifyPage(targetPage, modification, activePages)`. -/
def executeModifyPage (targetPage : String) (modification : Modification) (rid now : Nat)
    (activePages : List (String × PageConn)) (s : CoreState) :
    DispatchOutcome × CoreState :=
  executeCommand "modify_page" (.modificationParams modification) targetPage rid now activePages s

/-- `executeRunSnippet(pageId, code, activePages)`. -/
def executeRunSnippet (pageId code : String) (rid now : Nat)
    (activePages : List (String × PageConn)) (s : CoreState) :
    DispatchOutcome × CoreState :=
  executeCommand "run_snippet" (.codeParams code) pageId rid now activePages s

/-- Result shape of the shared `executeListPages`: `{ pages, count }`. -/
structure ListPagesResult where
  pages : List String
  count : Nat
deriving DecidableEq

/-- `executeListPages(activePages)`: prune every entry whose
`readyState !== WebSocket.OPEN`, then return `{pages, count}` built from
the surviving keys.  Returns the pruned registry and passes the
correlation state through untouched (the source never mentions
`pendingRequests` here). -/
def executeListPages (activePages : List (String × PageConn)) (s : CoreState) :
    ListPagesResult × List (String × PageConn) × CoreState :=
  let pruned := activePages.filter (fun e => e.2.isOpen)
  let pages := pruned.map Prod.fst
  (⟨pages, pages.length⟩, pruned, s)

/-- `handlePageResponse(data, activePages)`: look up the pending request;
if absent return `false` and change nothing; if present, reject on a
truthy `data.error`, otherwise resolve with `data.result || data`
(JS `||`: the whole envelope is the fallback for every falsy result),
clear the per-request timer (the stored continuations wrap
`clearTimeout`), delete the entry and return `true`. -/
def handlePageResponse (data : ReplyEnvelope) (s : CoreState) : Bool × CoreState :=
  match mapGet data.requestId s.pending with
  | some _record =>
      let settled : SettleOutcome :=
        if strTruthy data.error then .rejected (data.error.getD "")
        else
          match data.result with
          | some v => if v.truthy then .resolvedResult v else .resolvedEnvelope data
          | none => .resolvedEnvelope data
      (true,
       { pending := mapDelete data.requestId s.pending,
         timers := mapDelete data.requestId s.timers,
         log := s.log ++ [(data.requestId, settled)] })
  | none => (false, s)

/-- The Reaper's staleness test: `now - request.timestamp > timeout`
with `timeout = 30000` (strict comparison). -/
def isStale (now : Nat) (rec : PendingRecord) : Bool :=
  30000 < now - rec.timestamp

/-- `cleanupStaleRequests(onTimeoutCallback)` run at wall time `now`: for
every stale entry, invoke `request.reject(new Error(...))` (the wrapper
clears that request's timer) and delete the entry.  The
`onTimeoutCallback` only writes to the caller-side transports and is not
part of the correlation state. -/
def cleanupStaleRequests (now : Nat) (s : CoreState) : CoreState :=
  let staleIds := (s.pending.filter (fun e => isStale now e.2)).map Prod.fst
  { pending := s.pending.filter (fun e => !(isStale now e.2)),
    timers := s.timers.filter (fun t => !(staleIds.contains t.1)),
    log := s.log ++ (s.pending.filter (fun e => isStale now e.2)).map
      (fun e => (e.1, SettleOutcome.rejected "Request timed out after 30000ms")) }

/-- Body of the per-request `setTimeout` callback:
`pendingRequests.delete(requestId); reject(new Error("Request timed out after 30000ms"))`
(the fired timer also disarms itself). -/
def timerCallback (rid : Nat) (s : CoreState) : CoreState :=
  { pending := mapDelete rid s.pending,
    timers := mapDelete rid s.timers,
    log := s.log ++ [(rid, .rejected "Request timed out after 30000ms")] }

/-- One atomic event-loop handler touching the correlation state: the
Reply Router handling a `response` message, the Reaper's periodic sweep,
or a per-request timer callback.  A timer only runs if still armed and
no earlier than its scheduled fire time (the `setTimeout` contract). -/
inductive CoreEvent where
  | reply (env : ReplyEnvelope)
  | reaperSweep (now : Nat)
  | timerFired (rid : Nat) (now : Nat)
deriving DecidableEq

/-- Execute one event-loop handler. -/
def coreStep : CoreEvent → CoreState → CoreState
  | .reply env, s => (handlePageResponse env s).2
  | .reaperSweep now, s => cleanupStaleRequests now s
  | .timerFired rid now, s =>
      match mapGet rid s.timers with
      | some fireAt => if fireAt ≤ now then timerCallback rid s else s
      | none => s

/-- Run a sequence of handlers (an interleaving chosen by the event loop). -/
def coreRun (events : List CoreEvent) (s : CoreState) : CoreState :=
  events.foldl (fun acc e => coreStep e acc) s

/-- `broadcastToPages(activePages, message)`: `forEach` over the registry,
sending `{type:"activity", message}` to each socket whose
`readyState === WebSocket.OPEN`.  There is no try/catch around the send,
so a synchronous throw aborts the iteration and propagates to the caller.
Returns the `(pageId, message)` sends performed and the propagated
exception message, if any. -/
def broadcastToPages (activePages : List (String × PageConn)) (message : String) :
    List (String × String) × Option String :=
  match activePages with
  | [] => ([], none)
  | (pageId, ws) :: rest =>
      if ws.isOpen then
        if ws.sendThrows then ([], some ws.throwMessage)
        else
          let r := broadcastToPages rest message
          ((pageId, message) :: r.1, r.2)
      else broadcastToPages rest message

/-! ### Legacy server (`mcp-server/page-control-mcp.js`) -/

/-- A pending entry of the legacy server:
`pendingRequests.set(rpc.id, {sessionId, transport, method, timestamp})`
(no continuations, no per-request timer). -/
structure LegacyRecord where
  sessionId : Option String
  transport : String
  method : String
  timestamp : Nat
deriving DecidableEq

/-- Outcome of a `tools/call` dispatch in the legacy
`processJsonRpcMessage`. -/
inductive LegacyOutcome where
  /-- the `sendResponse(error)` / `return` path for an unknown page -/
  | errorResponse (message : String)
  /-- entry stored and command sent -/
  | sent (cmd : CommandEnvelope)
  /-- `ws.send` threw; there is no try/catch, the exception escapes
  `processJsonRpcMessage` with the freshly inserted entry still stored -/
  | uncaughtThrow (message : String)
deriving DecidableEq

/-- The `query_page` / `modify_page` / `run_snippet` cases of the legacy
`processJsonRpcMessage` (structurally identical up to method and params):
look up the page, store the pending record under `rpc.id`, then
`ws.send(...)` with no surrounding try/catch. -/
def legacyToolDispatch (method : String) (params : CommandParams) (pageId : String)
    (rpcId : Nat) (sessionId : Option String) (transport : String) (now : Nat)
    (activePages : List (String × PageConn)) (pending : List (Nat × LegacyRecord)) :
    LegacyOutcome × List (Nat × LegacyRecord) :=
  match mapGet pageId activePages with
  | none =>
      (.errorResponse (notConnectedMessage pageId (activePages.map Prod.fst)), pending)
  | some ws =>
      let pending1 := mapSet rpcId ⟨sessionId, transport, method, now⟩ pending
      if ws.sendThrows then (.uncaughtThrow ws.throwMessage, pending1)
      else (.sent ⟨method, params, rpcId⟩, pending1)

/-- Result of the legacy `list_pages` case: `result = { pages }` —
no `count` field. -/
structure LegacyListResult where
  pages : List String
deriving DecidableEq

/-- The legacy `list_pages` case: `Array.from(activePages.keys())` with no
pruning of closed transports and no count. -/
def legacyListPages (activePages : List (String × PageConn)) : LegacyListResult :=
  ⟨activePages.map Prod.fst⟩

/-! ### WebSocket connection handlers (the ESM server) -/

/-- Registry-side state of the WebSocket server: `activePages`
(pageId -> socket, sockets numbered) and each socket's closure variable
`pageId` set by its first `page_connected` message. -/
structure WsServerState where
  activePages : List (String × Nat)
  sockPage : List (Nat × String)
deriving DecidableEq

/-- The `page_connected` branch of `ws.on('message')`:
`pageId = data.pageId; activePages.set(pageId, ws)`. -/
def onPageConnected (sock : Nat) (pid : String) (st : WsServerState) : WsServerState :=
  { activePages := mapSet pid sock st.activePages,
    sockPage := mapSet sock pid st.sockPage }

/-- `ws.on('close')`: `if (pageId) activePages.delete(pageId)` — keyed by
the closing socket's remembered pageId, with no check that the stored
connection is this socket. -/
def onSocketClose (sock : Nat) (st : WsServerState) : WsServerState :=
  match mapGet sock st.sockPage with
  | some pid => { st with activePages := mapDelete pid st.activePages }
  | none => st

/-! ### Lemmas about the map model -/

theorem mapGet_eq_none_iff {κ ν : Type} [DecidableEq κ] (k : κ) (m : List (κ × ν)) :
    mapGet k m = none ↔ ∀ e ∈ m, e.1 ≠ k := by
  induction m with
  | nil => simp [mapGet]
  | cons hd tl ih =>
      obtain ⟨k', v⟩ := hd
      by_cases hk : k' = k <;> simp [mapGet, hk, ih]

theorem mapGet_filter_key_true {κ ν : Type} [DecidableEq κ] {k : κ} (p : κ × ν → Bool)
    (m : List (κ × ν)) (hp : ∀ v, p (k, v) = true) :
    mapGet k (m.filter p) = mapGet k m := by
  induction m with
  | nil => simp
  | cons hd tl ih =>
      obtain ⟨a, w⟩ := hd
      by_cases ha : a = k
      · subst ha
        simp [List.filter_cons, hp w, mapGet]
      · by_cases hq : p (a, w) <;> simp [List.filter_cons, hq, mapGet, ha, ih]

theorem mapGet_filter_key_false {κ ν : Type} [DecidableEq κ] {k : κ} (p : κ × ν → Bool)
    (m : List (κ × ν)) (hp : ∀ v, p (k, v) = false) :
    mapGet k (m.filter p) = none := by
  induction m with
  | nil => simp [mapGet]
  | cons hd tl ih =>
      obtain ⟨a, w⟩ := hd
      by_cases ha : a = k
      · subst ha
        simp [List.filter_cons, hp w, ih]
      · by_cases hq : p (a, w) <;> simp [List.filter_cons, hq, mapGet, ha, ih]

theorem mapGet_mapDelete_self {κ ν : Type} [DecidableEq κ] (k : κ) (m : List (κ × ν)) :
    mapGet k (mapDelete k m) = none :=
  mapGet_filter_key_false _ m (fun v => by simp)

theorem mapGet_mapDelete_ne {κ ν : Type} [DecidableEq κ] {k k' : κ} (m : List (κ × ν))
    (h : k' ≠ k) : mapGet k' (mapDelete k m) = mapGet k' m :=
  mapGet_filter_key_true _ m (fun v => by simp [h])

theorem mapGet_mapSet_self {κ ν : Type} [DecidableEq κ] (k : κ) (v : ν) (m : List (κ × ν)) :
    mapGet k (mapSet k v m) = some v := by
  induction m with
  | nil => simp [mapSet, mapGet]
  | cons hd tl ih =>
      obtain ⟨a, w⟩ := hd
      by_cases ha : a = k <;> simp [mapSet, mapGet, ha, ih]

theorem mapGet_mapSet_ne {κ ν : Type} [DecidableEq κ] {k k' : κ} (v : ν) (m : List (κ × ν))
    (h : k' ≠ k) : mapGet k' (mapSet k v m) = mapGet k' m := by
  have hkk : ¬k = k' := fun hc => h hc.symm
  induction m with
  | nil => simp [mapSet, mapGet, hkk]
  | cons hd tl ih =>
      obtain ⟨a, w⟩ := hd
      by_cases ha : a = k
      · subst ha
        simp [mapSet, mapGet, hkk]
      · by_cases ha' : a = k'
        · subst ha'
          simp [mapSet, mapGet, ha]
        · simp [mapSet, mapGet, ha, ha', ih]

theorem mapDelete_mapSet_of_absent {κ ν : Type} [DecidableEq κ] {k : κ} (v : ν)
    {m : List (κ × ν)} (h : mapGet k m = none) : mapDelete k (mapSet k v m) = m := by
  induction m with
  | nil => simp [mapSet, mapDelete]
  | cons hd tl ih =>
      obtain ⟨a, w⟩ := hd
      by_cases ha : a = k
      · simp [mapGet, ha] at h
      · simp [mapGet, ha] at h
        simp [mapSet, mapDelete, ha, ih h] at ih h ⊢
        exact ih h

theorem countKey_append {κ ν : Type} [DecidableEq κ] (k : κ) (l1 l2 : List (κ × ν)) :
    countKey k (l1 ++ l2) = countKey k l1 + countKey k l2 := by
  simp [countKey, List.filter_append]

theorem countKey_single {κ ν : Type} [DecidableEq κ] (k k' : κ) (v : ν) :
    countKey k [(k', v)] = if k' = k then 1 else 0 := by
  by_cases h : k' = k <;> simp [countKey, h]

theorem countKey_eq_zero_of_get_none {κ ν : Type} [DecidableEq κ] {k : κ}
    {l : List (κ × ν)} (h : mapGet k l = none) : countKey k l = 0 := by
  induction l with
  | nil => simp [countKey]
  | cons hd tl ih =>
      obtain ⟨a, v⟩ := hd
      by_cases ha : a = k
      · simp [mapGet, ha] at h
      · simp [mapGet, ha] at h
        simp [countKey, ha] at ih ⊢
        exact ih h

theorem countKey_map_keys {κ ν ν' : Type} [DecidableEq κ] (k : κ) (l : List (κ × ν))
    (f : κ × ν → ν') : countKey k (l.map (fun e => (e.1, f e))) = countKey k l := by
  induction l with
  | nil => simp [countKey]
  | cons hd tl ih =>
      by_cases ha : hd.1 = k <;> simp [countKey, ha] at ih ⊢ <;> simpa [ha] using ih

theorem keysNodup_cons {κ ν : Type} {hd : κ × ν} {tl : List (κ × ν)}
    (h : KeysNodup (hd :: tl)) : (∀ e ∈ tl, e.1 ≠ hd.1) ∧ KeysNodup tl := by
  simp only [KeysNodup, List.map_cons, List.nodup_cons, List.mem_map] at h
  refine ⟨fun e he hc => h.1 ⟨e, he, hc⟩, h.2⟩

theorem keysNodup_filter {κ ν : Type} (p : κ × ν → Bool) {m : List (κ × ν)}
    (h : KeysNodup m) : KeysNodup (m.filter p) := by
  induction m with
  | nil => simp [KeysNodup]
  | cons hd tl ih =>
      obtain ⟨hhd, htl⟩ := keysNodup_cons h
      by_cases hp : p hd
      · simp only [List.filter_cons, hp, if_true, KeysNodup, List.map_cons, List.nodup_cons]
        constructor
        · intro hc
          simp only [List.mem_map] at hc
          obtain ⟨e, he, hk⟩ := hc
          exact hhd e (List.mem_of_mem_filter he) hk
        · exact ih htl
      · simp only [List.filter_cons, hp, if_false]
        exact ih htl

theorem keysNodup_mapDelete {κ ν : Type} [DecidableEq κ] (k : κ) {m : List (κ × ν)}
    (h : KeysNodup m) : KeysNodup (mapDelete k m) :=
  keysNodup_filter _ h

theorem mapGet_eq_some_of_mem {κ ν : Type} [DecidableEq κ] {k : κ} {v : ν}
    {m : List (κ × ν)} (hnd : KeysNodup m) (hmem : (k, v) ∈ m) :
    mapGet k m = some v := by
  induction m with
  | nil => simp at hmem
  | cons hd tl ih =>
      obtain ⟨hhd, htl⟩ := keysNodup_cons hnd
      rcases List.mem_cons.mp hmem with heq | hmem'
      · subst heq; simp [mapGet]
      · have hk : hd.1 ≠ k := fun hc => hhd (k, v) hmem' hc.symm
        obtain ⟨a, w⟩ := hd
        simp only at hk
        simp [mapGet, hk, ih htl hmem']

theorem mem_of_mapGet_eq_some {κ ν : Type} [DecidableEq κ] {k : κ} {v : ν}
    {m : List (κ × ν)} (h : mapGet k m = some v) : (k, v) ∈ m := by
  induction m with
  | nil => simp [mapGet] at h
  | cons hd tl ih =>
      obtain ⟨a, w⟩ := hd
      by_cases ha : a = k
      · subst ha
        simp [mapGet] at h
        simp [h]
      · simp [mapGet, ha] at h
        exact List.mem_cons_of_mem _ (ih h)

theorem mapGet_filter_pos {κ ν : Type} [DecidableEq κ] {k : κ} {v : ν} (p : κ × ν → Bool)
    {m : List (κ × ν)} (hnd : KeysNodup m) (hget : mapGet k m = some v)
    (hp : p (k, v) = true) : mapGet k (m.filter p) = some v := by
  induction m with
  | nil => simp [mapGet] at hget
  | cons hd tl ih =>
      obtain ⟨hhd, htl⟩ := keysNodup_cons hnd
      obtain ⟨a, w⟩ := hd
      by_cases ha : a = k
      · subst ha
        simp [mapGet] at hget
        subst hget
        simp [List.filter_cons, hp, mapGet]
      · simp [mapGet, ha] at hget
        by_cases hq : p (a, w) <;> simp [List.filter_cons, hq, mapGet, ha, ih htl hget]

theorem mapGet_filter_neg {κ ν : Type} [DecidableEq κ] {k : κ} {v : ν} (p : κ × ν → Bool)
    {m : List (κ × ν)} (hnd : KeysNodup m) (hget : mapGet k m = some v)
    (hp : p (k, v) = false) : mapGet k (m.filter p) = none := by
  induction m with
  | nil => simp [mapGet] at hget
  | cons hd tl ih =>
      obtain ⟨hhd, htl⟩ := keysNodup_cons hnd
      obtain ⟨a, w⟩ := hd
      by_cases ha : a = k
      · subst ha
        simp [mapGet] at hget
        subst hget
        have habs : mapGet a tl = none := by
          rw [mapGet_eq_none_iff]
          exact fun e he => hhd e he
        simp [List.filter_cons, hp]
        rw [mapGet_eq_none_iff]
        exact fun e he => hhd e (List.mem_of_mem_filter he)
      · simp [mapGet, ha] at hget
        by_cases hq : p (a, w) <;> simp [List.filter_cons, hq, mapGet, ha, ih htl hget]

theorem mapGet_filter_none {κ ν : Type} [DecidableEq κ] {k : κ} (p : κ × ν → Bool)
    {m : List (κ × ν)} (hget : mapGet k m = none) : mapGet k (m.filter p) = none := by
  rw [mapGet_eq_none_iff] at hget ⊢
  exact fun e he => hget e (List.mem_of_mem_filter he)

theorem countKey_filter_of_nodup {κ ν : Type} [DecidableEq κ] {k : κ} {v : ν}
    (p : κ × ν → Bool) {m : List (κ × ν)} (hnd : KeysNodup m)
    (hget : mapGet k m = some v) :
    countKey k (m.filter p) = if p (k, v) then 1 else 0 := by
  induction m with
  | nil => simp [mapGet] at hget
  | cons hd tl ih =>
      obtain ⟨hhd, htl⟩ := keysNodup_cons hnd
      obtain ⟨a, w⟩ := hd
      by_cases ha : a = k
      · subst ha
        simp [mapGet] at hget
        subst hget
        have habs : mapGet a tl = none := by
          rw [mapGet_eq_none_iff]
          exact fun e he => hhd e he
        have hz : countKey a (tl.filter p) = 0 :=
          countKey_eq_zero_of_get_none (mapGet_filter_none p habs)
        by_cases hq : p (a, w) <;> simp [List.filter_cons, hq, countKey] at hz ⊢ <;>
          simpa [countKey] using hz
      · simp [mapGet, ha] at hget
        by_cases hq : p (a, w) <;> simp [List.filter_cons, hq, countKey, ha] at ih ⊢ <;>
          simpa [countKey] using ih htl hget

/-! ### Behaviour of the individual handlers -/

theorem handlePageResponse_absent {env : ReplyEnvelope} {s : CoreState}
    (hget : mapGet env.requestId s.pending = none) :
    handlePageResponse env s = (false, s) := by
  unfold handlePageResponse
  rw [hget]

theorem handlePageResponse_found {env : ReplyEnvelope} {s : CoreState} {rec : PendingRecord}
    (hget : mapGet env.requestId s.pending = some rec) :
    ∃ out : SettleOutcome, handlePageResponse env s =
      (true, { pending := mapDelete env.requestId s.pending,
               timers := mapDelete env.requestId s.timers,
               log := s.log ++ [(env.requestId, out)] }) := by
  unfold handlePageResponse
  rw [hget]
  exact ⟨_, rfl⟩

theorem contains_iff_mem_keys (rid : Nat) (l : List (Nat × PendingRecord)) :
    (l.map Prod.fst).contains rid = true ↔ ∃ rec, (rid, rec) ∈ l := by
  constructor
  · intro h
    have : rid ∈ l.map Prod.fst := by
      rw [List.contains_iff_exists_mem_beq] at h
      obtain ⟨a, ha, hb⟩ := h
      rwa [show rid = a from by simpa using hb]
    simp only [List.mem_map] at this
    obtain ⟨e, he, hk⟩ := this
    exact ⟨e.2, by rwa [show (rid, e.2) = e from by rw [← hk]]⟩
  · intro ⟨rec, hmem⟩
    rw [List.contains_iff_exists_mem_beq]
    exact ⟨rid, List.mem_map.mpr ⟨(rid, rec), hmem, rfl⟩, by simp⟩

theorem cleanupStaleRequests_eq (now : Nat) (s : CoreState) :
    cleanupStaleRequests now s =
      { pending := s.pending.filter (fun e => !(isStale now e.2)),
        timers := s.timers.filter
          (fun t => !(((s.pending.filter (fun e => isStale now e.2)).map Prod.fst).contains t.1)),
        log := s.log ++ (s.pending.filter (fun e => isStale now e.2)).map
          (fun e => (e.1, SettleOutcome.rejected "Request timed out after 30000ms")) } := rfl

theorem cleanup_of_get_some {rid now : Nat} {s : CoreState} {rec : PendingRecord}
    (hnd : KeysNodup s.pending) (hget : mapGet rid s.pending = some rec) :
    (isStale now rec = true →
        mapGet rid (cleanupStaleRequests now s).pending = none ∧
        mapGet rid (cleanupStaleRequests now s).timers = none ∧
        countKey rid (cleanupStaleRequests now s).log = countKey rid s.log + 1) ∧
    (isStale now rec = false →
        mapGet rid (cleanupStaleRequests now s).pending = some rec ∧
        mapGet rid (cleanupStaleRequests now s).timers = mapGet rid s.timers ∧
        countKey rid (cleanupStaleRequests now s).log = countKey rid s.log) := by
  rw [cleanupStaleRequests_eq]
  constructor
  · intro hstale
    refine ⟨?_, ?_, ?_⟩
    · exact mapGet_filter_neg _ hnd hget (by simp [hstale])
    · have hmem : (rid, rec) ∈ s.pending.filter (fun e => isStale now e.2) :=
        mem_of_mapGet_eq_some (mapGet_filter_pos _ hnd hget hstale)
      have hcont :
          ((s.pending.filter (fun e => isStale now e.2)).map Prod.fst).contains rid = true :=
        (contains_iff_mem_keys _ _).mpr ⟨rec, hmem⟩
      exact mapGet_filter_key_false _ _ (fun v => by simp only [hcont, Bool.not_true])
    · have hone : countKey rid (s.pending.filter (fun e => isStale now e.2)) = 1 := by
        rw [countKey_filter_of_nodup _ hnd hget, if_pos hstale]
      simp only [countKey_append, countKey_map_keys, hone]
  · intro hfresh
    refine ⟨?_, ?_, ?_⟩
    · exact mapGet_filter_pos _ hnd hget (by simp [hfresh])
    · have hnone : mapGet rid (s.pending.filter (fun e => isStale now e.2)) = none :=
        mapGet_filter_neg _ hnd hget hfresh
      have hcont :
          ((s.pending.filter (fun e => isStale now e.2)).map Prod.fst).contains rid = false := by
        by_contra hc
        have : ∃ rec2, (rid, rec2) ∈ s.pending.filter (fun e => isStale now e.2) :=
          (contains_iff_mem_keys _ _).mp (by revert hc; cases h2 :
            ((s.pending.filter (fun e => isStale now e.2)).map Prod.fst).contains rid <;> simp)
        obtain ⟨rec2, hmem2⟩ := this
        rw [mapGet_eq_none_iff] at hnone
        exact hnone (rid, rec2) hmem2 rfl
      exact mapGet_filter_key_true _ _ (fun v => by simp only [hcont, Bool.not_false])
    · have hzero : countKey rid (s.pending.filter (fun e => isStale now e.2)) = 0 := by
        rw [countKey_filter_of_nodup _ hnd hget, if_neg (by simp [hfresh])]
      simp only [countKey_append, countKey_map_keys, hzero]
      omega

theorem cleanup_of_get_none {rid now : Nat} {s : CoreState}
    (hget : mapGet rid s.pending = none) :
    mapGet rid (cleanupStaleRequests now s).pending = none ∧
    mapGet rid (cleanupStaleRequests now s).timers = mapGet rid s.timers ∧
    countKey rid (cleanupStaleRequests now s).log = countKey rid s.log := by
  have hnone : mapGet rid (s.pending.filter (fun e => isStale now e.2)) = none :=
    mapGet_filter_none _ hget
  have hcont :
      ((s.pending.filter (fun e => isStale now e.2)).map Prod.fst).contains rid = false := by
    by_contra hc
    have : ∃ rec2, (rid, rec2) ∈ s.pending.filter (fun e => isStale now e.2) :=
      (contains_iff_mem_keys _ _).mp (by revert hc; cases h2 :
        ((s.pending.filter (fun e => isStale now e.2)).map Prod.fst).contains rid <;> simp)
    obtain ⟨rec2, hmem2⟩ := this
    rw [mapGet_eq_none_iff] at hnone
    exact hnone (rid, rec2) hmem2 rfl
  rw [cleanupStaleRequests_eq]
  refine ⟨mapGet_filter_none _ hget, ?_, ?_⟩
  · exact mapGet_filter_key_true _ _ (fun v => by simp only [hcont, Bool.not_false])
  · have hzero : countKey rid (s.pending.filter (fun e => isStale now e.2)) = 0 :=
      countKey_eq_zero_of_get_none hnone
    simp only [countKey_append, countKey_map_keys, hzero]
    omega

/-! ### Exactly-once invariant -/

/-- The request is still open: an entry in the table, an armed timer, and
no settlement of its promise yet (the state right after a successful
dispatch). -/
def PendingPhase (rid : Nat) (s : CoreState) : Prop :=
  (mapGet rid s.pending).isSome = true ∧ (mapGet rid s.timers).isSome = true ∧
    countKey rid s.log = 0

/-- The request is settled: no table entry, no armed timer, and exactly one
settlement of its promise in the log. -/
def DonePhase (rid : Nat) (s : CoreState) : Prop :=
  mapGet rid s.pending = none ∧ mapGet rid s.timers = none ∧ countKey rid s.log = 1

/-- Invariant tying the table, the timers and the settlement log together
for one requestId. -/
def ExactlyOnceInv (rid : Nat) (s : CoreState) : Prop :=
  KeysNodup s.pending ∧ (PendingPhase rid s ∨ DonePhase rid s)

theorem exactlyOnceInv_reply (rid : Nat) (env : ReplyEnvelope) {s : CoreState}
    (h : ExactlyOnceInv rid s) : ExactlyOnceInv rid (handlePageResponse env s).2 := by
  obtain ⟨hnd, hph⟩ := h
  cases hget : mapGet env.requestId s.pending with
  | none => rw [handlePageResponse_absent hget]; exact ⟨hnd, hph⟩
  | some rec =>
      obtain ⟨out, heq⟩ := handlePageResponse_found hget
      rw [heq]
      refine ⟨keysNodup_mapDelete _ hnd, ?_⟩
      by_cases hid : env.requestId = rid
      · subst hid
        rcases hph with ⟨hp, ht, hc⟩ | ⟨hp, ht, hc⟩
        · right
          refine ⟨mapGet_mapDelete_self _ _, mapGet_mapDelete_self _ _, ?_⟩
          simp [countKey_append, countKey_single, hc]
        · rw [hp] at hget; cases hget
      · have hne : rid ≠ env.requestId := fun hc => hid hc.symm
        rcases hph with ⟨hp, ht, hc⟩ | ⟨hp, ht, hc⟩
        · left
          refine ⟨?_, ?_, ?_⟩
          · rw [mapGet_mapDelete_ne _ hne]; exact hp
          · rw [mapGet_mapDelete_ne _ hne]; exact ht
          · simp [countKey_append, countKey_single, hc, hid]
        · right
          refine ⟨?_, ?_, ?_⟩
          · rw [mapGet_mapDelete_ne _ hne]; exact hp
          · rw [mapGet_mapDelete_ne _ hne]; exact ht
          · simp [countKey_append, countKey_single, hc, hid]

theorem keysNodup_cleanup (now : Nat) {s : CoreState} (hnd : KeysNodup s.pending) :
    KeysNodup (cleanupStaleRequests now s).pending := by
  rw [cleanupStaleRequests_eq]
  exact keysNodup_filter _ hnd

theorem exactlyOnceInv_reaper (rid now : Nat) {s : CoreState}
    (h : ExactlyOnceInv rid s) : ExactlyOnceInv rid (cleanupStaleRequests now s) := by
  obtain ⟨hnd, hph⟩ := h
  refine ⟨keysNodup_cleanup now hnd, ?_⟩
  rcases hph with ⟨hp, ht, hc⟩ | ⟨hp, ht, hc⟩
  · obtain ⟨rec, hget⟩ := Option.isSome_iff_exists.mp hp
    obtain ⟨hstale, hfresh⟩ := cleanup_of_get_some hnd hget
    cases hst : isStale now rec with
    | true =>
        obtain ⟨h1, h2, h3⟩ := hstale hst
        right
        exact ⟨h1, h2, by omega⟩
    | false =>
        obtain ⟨h1, h2, h3⟩ := hfresh hst
        left
        exact ⟨by simp [h1], by rw [h2]; exact ht, by omega⟩
  · obtain ⟨h1, h2, h3⟩ := cleanup_of_get_none hp
    right
    exact ⟨h1, by rw [h2]; exact ht, by omega⟩

theorem exactlyOnceInv_timer (rid rid' now : Nat) {s : CoreState}
    (h : ExactlyOnceInv rid s) :
    ExactlyOnceInv rid (coreStep (.timerFired rid' now) s) := by
  obtain ⟨hnd, hph⟩ := h
  show ExactlyOnceInv rid
    (match mapGet rid' s.timers with
     | some fireAt => if fireAt ≤ now then timerCallback rid' s else s
     | none => s)
  cases hget : mapGet rid' s.timers with
  | none => exact ⟨hnd, hph⟩
  | some fireAt =>
      by_cases hfire : fireAt ≤ now
      · simp only [hfire, if_true]
        refine ⟨keysNodup_mapDelete _ hnd, ?_⟩
        by_cases hid : rid' = rid
        · subst hid
          rcases hph with ⟨hp, ht, hc⟩ | ⟨hp, ht, hc⟩
          · right
            refine ⟨mapGet_mapDelete_self _ _, mapGet_mapDelete_self _ _, ?_⟩
            simp [timerCallback, countKey_append, countKey_single, hc]
          · rw [ht] at hget; cases hget
        · have hne : rid ≠ rid' := fun hc => hid hc.symm
          rcases hph with ⟨hp, ht, hc⟩ | ⟨hp, ht, hc⟩
          · left
            refine ⟨?_, ?_, ?_⟩
            · show (mapGet rid (mapDelete rid' s.pending)).isSome = true
              rw [mapGet_mapDelete_ne _ hne]; exact hp
            · show (mapGet rid (mapDelete rid' s.timers)).isSome = true
              rw [mapGet_mapDelete_ne _ hne]; exact ht
            · simp [timerCallback, countKey_append, countKey_single, hc, hid]
          · right
            refine ⟨?_, ?_, ?_⟩
            · show mapGet rid (mapDelete rid' s.pending) = none
              rw [mapGet_mapDelete_ne _ hne]; exact hp
            · show mapGet rid (mapDelete rid' s.timers) = none
              rw [mapGet_mapDelete_ne _ hne]; exact ht
            · simp [timerCallback, countKey_append, countKey_single, hc, hid]
      · simp only [hfire, if_false]
        exact ⟨hnd, hph⟩

theorem exactlyOnceInv_step (rid : Nat) (e : CoreEvent) {s : CoreState}
    (h : ExactlyOnceInv rid s) : ExactlyOnceInv rid (coreStep e s) := by
  cases e with
  | reply env => exact exactlyOnceInv_reply rid env h
  | reaperSweep now => exact exactlyOnceInv_reaper rid now h
  | timerFired rid' now => exact exactlyOnceInv_timer rid rid' now h

theorem exactlyOnceInv_run (rid : Nat) (events : List CoreEvent) {s : CoreState}
    (h : ExactlyOnceInv rid s) : ExactlyOnceInv rid (coreRun events s) := by
  induction events generalizing s with
  | nil => exact h
  | cons e rest ih => exact ih (exactlyOnceInv_step rid e h)

/-! ### Claims -/

/-- Claim C1: for every requestId, across any interleaving of the Reply
Router handling a matching reply, the Reaper's periodic sweep and the
per-request timer, the continuations of its PendingRequest are invoked
exactly once in total, and afterwards the correlation table contains no
entry for that requestId: starting from the post-dispatch state (entry
present, timer armed, no settlement), any event sequence settles the
promise at most once, and the entry is gone exactly when the one
settlement has happened. -/
theorem c1_exactly_once_resolution (rid : Nat) (s : CoreState) (events : List CoreEvent)
    (hnd : KeysNodup s.pending)
    (hpend : (mapGet rid s.pending).isSome = true)
    (htimer : (mapGet rid s.timers).isSome = true)
    (hlog : countKey rid s.log = 0) :
    countKey rid (coreRun events s).log ≤ 1 ∧
      (mapGet rid (coreRun events s).pending = none ↔
        countKey rid (coreRun events s).log = 1) := by
  have hinv := exactlyOnceInv_run rid events ⟨hnd, Or.inl ⟨hpend, htimer, hlog⟩⟩
  obtain ⟨-, hph⟩ := hinv
  rcases hph with ⟨hp, ht, hc⟩ | ⟨hp, ht, hc⟩
  · refine ⟨by omega, ?_, ?_⟩
    · intro hnone; rw [hnone] at hp; simp at hp
    · intro h1; omega
  · exact ⟨by omega, by simp [hp, hc]⟩

/-- Witness for C1: a reply routed to a pending request settles it once and
empties the table for its id. -/
theorem c1_exactly_once_resolution_witness :
    countKey 1 (coreRun [CoreEvent.reply ⟨"p1", 1, some (JValue.jstr "ok"), none⟩]
        ⟨[(1, ⟨"query_page", 0⟩)], [(1, 30000)], []⟩).log ≤ 1 ∧
      (mapGet 1 (coreRun [CoreEvent.reply ⟨"p1", 1, some (JValue.jstr "ok"), none⟩]
          ⟨[(1, ⟨"query_page", 0⟩)], [(1, 30000)], []⟩).pending = none ↔
        countKey 1 (coreRun [CoreEvent.reply ⟨"p1", 1, some (JValue.jstr "ok"), none⟩]
          ⟨[(1, ⟨"query_page", 0⟩)], [(1, 30000)], []⟩).log = 1) :=
  c1_exactly_once_resolution 1 ⟨[(1, ⟨"query_page", 0⟩)], [(1, 30000)], []⟩
    [CoreEvent.reply ⟨"p1", 1, some (JValue.jstr "ok"), none⟩]
    (by decide) (by decide) (by decide) (by decide)

/-- Claim C2, counterexample: the claim says the whole envelope is used only
when `result` is null or absent, but the code resolves with
`data.result || data`, so a present, non-null but falsy result
(here `false`) also falls back to the whole envelope. -/
theorem c2_counterexample :
    (handlePageResponse ⟨"p1", 7, some (JValue.jbool false), none⟩
        ⟨[(7, ⟨"query_page", 0⟩)], [(7, 30000)], []⟩).2.log
      = [(7, SettleOutcome.resolvedEnvelope ⟨"p1", 7, some (JValue.jbool false), none⟩)] ∧
    some (JValue.jbool false) ≠ (none : Option JValue) ∧
    JValue.jbool false ≠ JValue.jnull := by
  refine ⟨rfl, by decide, by decide⟩

/-- Claim C2 (amended): for every reply envelope whose requestId has a
pending entry, a truthy error rejects with that message, otherwise the
resolve continuation gets `result` when `result` is truthy and the whole
envelope when `result` is absent or falsy (JS `||`, not `??`); the entry
is removed and the router returns `true`. -/
theorem c2_route_matching_reply (env : ReplyEnvelope) (s : CoreState) (rec : PendingRecord)
    (hget : mapGet env.requestId s.pending = some rec) :
    (handlePageResponse env s).1 = true ∧
    mapGet env.requestId (handlePageResponse env s).2.pending = none ∧
    (strTruthy env.error = true →
      (handlePageResponse env s).2.log
        = s.log ++ [(env.requestId, SettleOutcome.rejected (env.error.getD ""))]) ∧
    (∀ v, strTruthy env.error = false → env.result = some v → v.truthy = true →
      (handlePageResponse env s).2.log
        = s.log ++ [(env.requestId, SettleOutcome.resolvedResult v)]) ∧
    (strTruthy env.error = false →
      (env.result = none ∨ ∃ v, env.result = some v ∧ v.truthy = false) →
      (handlePageResponse env s).2.log
        = s.log ++ [(env.requestId, SettleOutcome.resolvedEnvelope env)]) := by
  unfold handlePageResponse
  rw [hget]
  refine ⟨rfl, mapGet_mapDelete_self _ _, ?_, ?_, ?_⟩
  · intro herr
    simp [herr]
  · intro v herr hres hv
    simp [herr, hres, hv]
  · intro herr hfall
    rcases hfall with hnone | ⟨v, hres, hv⟩
    · simp [herr, hnone]
    · simp [herr, hres, hv]

/-- Witness for C2 (amended): an error reply rejects with the error message
and removes the entry. -/
theorem c2_route_matching_reply_witness :
    (handlePageResponse ⟨"p1", 4, none, some "fail"⟩
        ⟨[(4, ⟨"modify_page", 2⟩)], [(4, 30002)], []⟩).1 = true ∧
    mapGet 4 (handlePageResponse ⟨"p1", 4, none, some "fail"⟩
        ⟨[(4, ⟨"modify_page", 2⟩)], [(4, 30002)], []⟩).2.pending = none ∧
    (strTruthy (some "fail") = true →
      (handlePageResponse ⟨"p1", 4, none, some "fail"⟩
          ⟨[(4, ⟨"modify_page", 2⟩)], [(4, 30002)], []⟩).2.log
        = [] ++ [(4, SettleOutcome.rejected ((some "fail").getD ""))]) ∧
    (∀ v, strTruthy (some "fail") = false → (none : Option JValue) = some v →
      v.truthy = true →
      (handlePageResponse ⟨"p1", 4, none, some "fail"⟩
          ⟨[(4, ⟨"modify_page", 2⟩)], [(4, 30002)], []⟩).2.log
        = [] ++ [(4, SettleOutcome.resolvedResult v)]) ∧
    (strTruthy (some "fail") = false →
      ((none : Option JValue) = none ∨
        ∃ v, (none : Option JValue) = some v ∧ v.truthy = false) →
      (handlePageResponse ⟨"p1", 4, none, some "fail"⟩
          ⟨[(4, ⟨"modify_page", 2⟩)], [(4, 30002)], []⟩).2.log
        = [] ++ [(4, SettleOutcome.resolvedEnvelope ⟨"p1", 4, none, some "fail"⟩)]) :=
  c2_route_matching_reply ⟨"p1", 4, none, some "fail"⟩
    ⟨[(4, ⟨"modify_page", 2⟩)], [(4, 30002)], []⟩ ⟨"modify_page", 2⟩ (by decide)

/-- Claim C3: dispatching query_page / modify_page / run_snippet to a
non-registered pageId fails synchronously in both servers with the message
enumerating the connected page ids (or "none"), and the correlation table
is untouched. -/
theorem c3_dispatch_unknown_page (method : String) (params : CommandParams)
    (pageId : String) (rid now : Nat) (activePages : List (String × PageConn))
    (s : CoreState) (rpcId : Nat) (sessionId : Option String) (transport : String)
    (pending : List (Nat × LegacyRecord))
    (h : mapGet pageId activePages = none) :
    executeCommand method params pageId rid now activePages s
      = (.notConnected (notConnectedMessage pageId (activePages.map Prod.fst)), s) ∧
    legacyToolDispatch method params pageId rpcId sessionId transport now activePages pending
      = (.errorResponse (notConnectedMessage pageId (activePages.map Prod.fst)), pending) := by
  unfold executeCommand legacyToolDispatch
  rw [h]
  exact ⟨rfl, rfl⟩

/-- Witness for C3: dispatching to "ghost" with no registered pages fails
with the "none" message and leaves both tables unchanged. -/
theorem c3_dispatch_unknown_page_witness :
    executeCommand "query_page" (.selectorParams ".title") "ghost" 1 0 []
        ⟨[], [], []⟩
      = (.notConnected (notConnectedMessage "ghost" (([] : List (String × PageConn)).map Prod.fst)),
         (⟨[], [], []⟩ : CoreState)) ∧
    legacyToolDispatch "query_page" (.selectorParams ".title") "ghost" 2 none "SSE" 0 [] []
      = (.errorResponse (notConnectedMessage "ghost" (([] : List (String × PageConn)).map Prod.fst)),
         ([] : List (Nat × LegacyRecord))) :=
  c3_dispatch_unknown_page "query_page" (.selectorParams ".title") "ghost" 1 0 []
    ⟨[], [], []⟩ 2 none "SSE" [] rfl

/-- Claim C4, counterexample: in the legacy server the send is not guarded
by try/catch, so when `ws.send` throws the freshly inserted pending entry
is NOT removed and the caller is not rejected — the exception just escapes
with the entry still stored. -/
theorem c4_counterexample :
    (legacyToolDispatch "query_page" (.selectorParams ".title") "p1" 9 none "SSE" 0
        [("p1", ⟨true, true, "socket closed"⟩)] []).1
      = LegacyOutcome.uncaughtThrow "socket closed" ∧
    mapGet 9 (legacyToolDispatch "query_page" (.selectorParams ".title") "p1" 9 none "SSE" 0
        [("p1", ⟨true, true, "socket closed"⟩)] []).2
      = some ⟨none, "SSE", "query_page", 0⟩ :=
  ⟨rfl, rfl⟩

/-- Claim C4 (amended): in the shared command module, when the transport
send throws synchronously, the just-inserted PendingRequest is removed,
the caller's promise is rejected with the send failure, and (when the
allocated requestId was fresh) the table is exactly as before the
dispatch.  The legacy raw JSON-RPC dispatcher does not guard the send, so
there the entry survives the throw (see the counterexample). -/
theorem c4_send_failure_rollback (method : String) (params : CommandParams)
    (pageId : String) (rid now : Nat) (activePages : List (String × PageConn))
    (s : CoreState) (ws : PageConn)
    (hget : mapGet pageId activePages = some ws)
    (hthrow : ws.sendThrows = true)
    (hfresh : mapGet rid s.pending = none) :
    (executeCommand method params pageId rid now activePages s).1
      = .sendFailed ws.throwMessage ∧
    (executeCommand method params pageId rid now activePages s).2.pending = s.pending ∧
    (executeCommand method params pageId rid now activePages s).2.log
      = s.log ++ [(rid, SettleOutcome.rejected ws.throwMessage)] := by
  unfold executeCommand
  rw [hget]
  simp only [hthrow, if_true]
  exact ⟨trivial, mapDelete_mapSet_of_absent _ hfresh, trivial⟩

/-- Witness for C4 (amended): a throwing send through the shared module
rolls the table back and rejects the promise with the send failure. -/
theorem c4_send_failure_rollback_witness :
    (executeCommand "run_snippet" (.codeParams "1+1") "p1" 8 50
        [("p1", ⟨true, true, "transport closed"⟩)] ⟨[], [], []⟩).1
      = .sendFailed (PageConn.mk true true "transport closed").throwMessage ∧
    (executeCommand "run_snippet" (.codeParams "1+1") "p1" 8 50
        [("p1", ⟨true, true, "transport closed"⟩)] ⟨[], [], []⟩).2.pending
      = (⟨[], [], []⟩ : CoreState).pending ∧
    (executeCommand "run_snippet" (.codeParams "1+1") "p1" 8 50
        [("p1", ⟨true, true, "transport closed"⟩)] ⟨[], [], []⟩).2.log
      = (⟨[], [], []⟩ : CoreState).log
          ++ [(8, SettleOutcome.rejected (PageConn.mk true true "transport closed").throwMessage)] :=
  c4_send_failure_rollback "run_snippet" (.codeParams "1+1") "p1" 8 50
    [("p1", ⟨true, true, "transport closed"⟩)] ⟨[], [], []⟩
    ⟨true, true, "transport closed"⟩ rfl rfl rfl

/-- Claim C5, counterexample: inserting under a requestId that is already
pending does not fail with DuplicateId — `Map.set` silently overwrites:
the dispatch succeeds and the old record is replaced by the new one. -/
theorem c5_counterexample :
    (executeCommand "query_page" (.selectorParams ".x") "p1" 5 100
        [("p1", ⟨true, false, ""⟩)]
        ⟨[(5, ⟨"modify_page", 0⟩)], [(5, 30000)], []⟩).1
      = DispatchOutcome.dispatched ⟨"query_page", .selectorParams ".x", 5⟩ ∧
    (executeCommand "query_page" (.selectorParams ".x") "p1" 5 100
        [("p1", ⟨true, false, ""⟩)]
        ⟨[(5, ⟨"modify_page", 0⟩)], [(5, 30000)], []⟩).2.pending
      = [(5, ⟨"query_page", 100⟩)] ∧
    PendingRecord.mk "query_page" 100 ≠ PendingRecord.mk "modify_page" 0 :=
  ⟨rfl, rfl, by decide⟩

/-- Claim C5 (amended): an insertion under an already-present requestId
silently overwrites the existing pending record (no DuplicateId error
exists in the code): the dispatch reports success and the table afterwards
maps the requestId to the new record, no longer to the old one. -/
theorem c5_insert_overwrites (method : String) (params : CommandParams) (pageId : String)
    (rid now : Nat) (activePages : List (String × PageConn)) (s : CoreState)
    (ws : PageConn) (old : PendingRecord)
    (hget : mapGet pageId activePages = some ws)
    (hok : ws.sendThrows = false)
    (_hold : mapGet rid s.pending = some old)
    (hne : old ≠ PendingRecord.mk method now) :
    (executeCommand method params pageId rid now activePages s).1
      = .dispatched ⟨method, params, rid⟩ ∧
    mapGet rid (executeCommand method params pageId rid now activePages s).2.pending
      = some ⟨method, now⟩ ∧
    mapGet rid (executeCommand method params pageId rid now activePages s).2.pending
      ≠ some old := by
  unfold executeCommand
  rw [hget]
  simp only [hok, Bool.false_eq_true, if_false]
  refine ⟨trivial, mapGet_mapSet_self _ _ _, ?_⟩
  rw [mapGet_mapSet_self]
  exact fun hc => hne (Option.some.inj hc).symm

/-- Witness for C5 (amended): a colliding insert overwrites the stored
record in place. -/
theorem c5_insert_overwrites_witness :
    (executeCommand "run_snippet" (.codeParams "x") "p2" 6 200
        [("p2", ⟨true, false, ""⟩)]
        ⟨[(6, ⟨"query_page", 1⟩)], [(6, 30001)], []⟩).1
      = .dispatched ⟨"run_snippet", .codeParams "x", 6⟩ ∧
    mapGet 6 (executeCommand "run_snippet" (.codeParams "x") "p2" 6 200
        [("p2", ⟨true, false, ""⟩)]
        ⟨[(6, ⟨"query_page", 1⟩)], [(6, 30001)], []⟩).2.pending
      = some ⟨"run_snippet", 200⟩ ∧
    mapGet 6 (executeCommand "run_snippet" (.codeParams "x") "p2" 6 200
        [("p2", ⟨true, false, ""⟩)]
        ⟨[(6, ⟨"query_page", 1⟩)], [(6, 30001)], []⟩).2.pending
      ≠ some ⟨"query_page", 1⟩ :=
  c5_insert_overwrites "run_snippet" (.codeParams "x") "p2" 6 200
    [("p2", ⟨true, false, ""⟩)] ⟨[(6, ⟨"query_page", 1⟩)], [(6, 30001)], []⟩
    ⟨true, false, ""⟩ ⟨"query_page", 1⟩ rfl rfl rfl (by decide)

/-- Claim C6: timeout floor.  For a pending entry created at `t0` with its
timer armed for `t0 + 30000`: before that bound neither the per-request
timer nor the Reaper settles it (the staleness comparison
`now - timestamp > 30000` cannot fire for a younger entry); any Reaper
settlement of it happens strictly after the bound; and firing the armed
timer at any `now ≥ t0 + 30000` rejects it with the 30000 ms timeout error
and removes the entry. -/
theorem c6_timeout_floor (s : CoreState) (rid : Nat) (rec : PendingRecord) (now : Nat)
    (hnd : KeysNodup s.pending)
    (hp : mapGet rid s.pending = some rec)
    (ht : mapGet rid s.timers = some (rec.timestamp + 30000)) :
    (now < rec.timestamp + 30000 →
      coreStep (.timerFired rid now) s = s ∧
      mapGet rid (coreStep (.reaperSweep now) s).pending = some rec ∧
      countKey rid (coreStep (.reaperSweep now) s).log = countKey rid s.log) ∧
    (countKey rid s.log < countKey rid (coreStep (.reaperSweep now) s).log →
      rec.timestamp + 30000 < now) ∧
    (rec.timestamp + 30000 ≤ now →
      (coreStep (.timerFired rid now) s).log
        = s.log ++ [(rid, SettleOutcome.rejected "Request timed out after 30000ms")] ∧
      mapGet rid (coreStep (.timerFired rid now) s).pending = none) := by
  have hfresh_of_lt : now < rec.timestamp + 30000 → isStale now rec = false := by
    intro hlt
    simp only [isStale, decide_eq_false_iff_not]
    omega
  refine ⟨?_, ?_, ?_⟩
  · intro hlt
    refine ⟨?_, ?_, ?_⟩
    · show (match mapGet rid s.timers with
        | some fireAt => if fireAt ≤ now then timerCallback rid s else s
        | none => s) = s
      rw [ht]
      simp only [if_neg (by omega : ¬rec.timestamp + 30000 ≤ now)]
    · exact ((cleanup_of_get_some hnd hp).2 (hfresh_of_lt hlt)).1
    · exact ((cleanup_of_get_some hnd hp).2 (hfresh_of_lt hlt)).2.2
  · intro hgrow
    by_contra hc
    have hfresh : isStale now rec = false := by
      simp only [isStale, decide_eq_false_iff_not]
      omega
    have := ((cleanup_of_get_some hnd hp).2 hfresh).2.2
    simp only [coreStep] at hgrow
    omega
  · intro hge
    constructor
    · show (match mapGet rid s.timers with
        | some fireAt => if fireAt ≤ now then timerCallback rid s else s
        | none => s).log
        = s.log ++ [(rid, SettleOutcome.rejected "Request timed out after 30000ms")]
      rw [ht]
      simp only [if_pos hge]
      rfl
    · show mapGet rid (match mapGet rid s.timers with
        | some fireAt => if fireAt ≤ now then timerCallback rid s else s
        | none => s).pending = none
      rw [ht]
      simp only [if_pos hge]
      exact mapGet_mapDelete_self _ _

/-- Witness for C6: at 5000 ms of age (bound 30100) nothing fires; the
other conjuncts hold at this instance as well. -/
theorem c6_timeout_floor_witness :
    (5000 < (PendingRecord.mk "run_snippet" 100).timestamp + 30000 →
      coreStep (.timerFired 3 5000) ⟨[(3, ⟨"run_snippet", 100⟩)], [(3, 30100)], []⟩
        = ⟨[(3, ⟨"run_snippet", 100⟩)], [(3, 30100)], []⟩ ∧
      mapGet 3 (coreStep (.reaperSweep 5000)
        ⟨[(3, ⟨"run_snippet", 100⟩)], [(3, 30100)], []⟩).pending
        = some ⟨"run_snippet", 100⟩ ∧
      countKey 3 (coreStep (.reaperSweep 5000)
        ⟨[(3, ⟨"run_snippet", 100⟩)], [(3, 30100)], []⟩).log
        = countKey 3 ((⟨[(3, ⟨"run_snippet", 100⟩)], [(3, 30100)], []⟩ : CoreState)).log) ∧
    (countKey 3 ((⟨[(3, ⟨"run_snippet", 100⟩)], [(3, 30100)], []⟩ : CoreState)).log
        < countKey 3 (coreStep (.reaperSweep 5000)
          ⟨[(3, ⟨"run_snippet", 100⟩)], [(3, 30100)], []⟩).log →
      (PendingRecord.mk "run_snippet" 100).timestamp + 30000 < 5000) ∧
    ((PendingRecord.mk "run_snippet" 100).timestamp + 30000 ≤ 5000 →
      (coreStep (.timerFired 3 5000)
          ⟨[(3, ⟨"run_snippet", 100⟩)], [(3, 30100)], []⟩).log
        = (⟨[(3, ⟨"run_snippet", 100⟩)], [(3, 30100)], []⟩ : CoreState).log
            ++ [(3, SettleOutcome.rejected "Request timed out after 30000ms")] ∧
      mapGet 3 (coreStep (.timerFired 3 5000)
          ⟨[(3, ⟨"run_snippet", 100⟩)], [(3, 30100)], []⟩).pending = none) :=
  c6_timeout_floor ⟨[(3, ⟨"run_snippet", 100⟩)], [(3, 30100)], []⟩ 3
    ⟨"run_snippet", 100⟩ 5000 (by decide) rfl rfl

/-- Claim C7: routing a reply whose requestId has no pending entry returns
`false`, invokes no continuation and leaves the whole state unchanged. -/
theorem c7_orphan_reply (env : ReplyEnvelope) (s : CoreState)
    (h : mapGet env.requestId s.pending = none) :
    handlePageResponse env s = (false, s) :=
  handlePageResponse_absent h

/-- Witness for C7: an orphan reply is a strict no-op. -/
theorem c7_orphan_reply_witness :
    handlePageResponse ⟨"p9", 42, some (JValue.jstr "late"), none⟩
        ⟨[(1, ⟨"query_page", 0⟩)], [(1, 30000)], []⟩
      = (false, ⟨[(1, ⟨"query_page", 0⟩)], [(1, 30000)], []⟩) :=
  c7_orphan_reply ⟨"p9", 42, some (JValue.jstr "late"), none⟩
    ⟨[(1, ⟨"query_page", 0⟩)], [(1, 30000)], []⟩ (by decide)

/-- Claim C8, counterexample: the legacy server's list_pages neither prunes
closed transports nor returns a count — a page whose transport is not open
is still listed, so "pages lists exactly the pageIds whose transport is
currently open" fails there. -/
theorem c8_counterexample :
    legacyListPages [("p1", ⟨false, false, ""⟩)] = ⟨["p1"]⟩ ∧
    (PageConn.mk false false "").isOpen = false :=
  ⟨rfl, rfl⟩

/-- Claim C8 (amended): the shared executeListPages is synchronous, passes
the correlation state through untouched, returns `{pages, count}` with
`count = pages.length`, prunes every entry whose transport is not open,
and `pages` lists exactly the pageIds with an open transport.  The legacy
server's list_pages does none of the pruning and has no count (see the
counterexample). -/
theorem c8_list_pages (activePages : List (String × PageConn)) (s : CoreState) :
    (executeListPages activePages s).1.pages
        = (activePages.filter (fun e => e.2.isOpen)).map Prod.fst ∧
    (executeListPages activePages s).1.count
        = (executeListPages activePages s).1.pages.length ∧
    (executeListPages activePages s).2.1 = activePages.filter (fun e => e.2.isOpen) ∧
    (executeListPages activePages s).2.2 = s ∧
    (∀ pid, pid ∈ (executeListPages activePages s).1.pages ↔
        ∃ ws, (pid, ws) ∈ activePages ∧ ws.isOpen = true) := by
  refine ⟨rfl, rfl, rfl, rfl, ?_⟩
  intro pid
  show pid ∈ (activePages.filter (fun e => e.2.isOpen)).map Prod.fst ↔ _
  simp only [List.mem_map, List.mem_filter]
  constructor
  · rintro ⟨e, ⟨hmem, hopen⟩, hk⟩
    exact ⟨e.2, by rw [← hk]; exact hmem, hopen⟩
  · rintro ⟨ws, hmem, hopen⟩
    exact ⟨(pid, ws), ⟨hmem, hopen⟩, rfl⟩

/-- Claim C9, counterexample: a throwing send during broadcast is NOT
swallowed: in `[("a", throws), ("b", ok)]` the open page "b" receives
nothing and the exception propagates to the caller. -/
theorem c9_counterexample :
    broadcastToPages [("a", ⟨true, true, "boom"⟩), ("b", ⟨true, false, ""⟩)] "notice"
      = ([], some "boom") ∧
    (PageConn.mk true false "").isOpen = true :=
  ⟨rfl, rfl⟩

/-- Claim C9 (amended): broadcastToPages checks `readyState === OPEN`
before each send but has no try/catch: the first open page whose send
throws aborts the fan-out — open pages earlier in iteration order have
already been sent the message, later pages get nothing, and the exception
propagates to the caller of the triggering operation. -/
theorem c9_broadcast_stops_at_throw (pre post : List (String × PageConn))
    (pageId message : String) (ws : PageConn)
    (hpre : ∀ e ∈ pre, e.2.isOpen = true → e.2.sendThrows = false)
    (hopen : ws.isOpen = true) (hthrow : ws.sendThrows = true) :
    broadcastToPages (pre ++ (pageId, ws) :: post) message
      = ((pre.filter (fun e => e.2.isOpen)).map (fun e => (e.1, message)),
         some ws.throwMessage) := by
  induction pre with
  | nil => simp [broadcastToPages, hopen, hthrow]
  | cons hd tl ih =>
      have htl : ∀ e ∈ tl, e.2.isOpen = true → e.2.sendThrows = false :=
        fun e he => hpre e (List.mem_cons_of_mem hd he)
      have hd_ok := hpre hd (List.mem_cons_self hd tl)
      obtain ⟨pid0, ws0⟩ := hd
      by_cases h0 : ws0.isOpen
      · have hnothrow : ws0.sendThrows = false := hd_ok h0
        simp [broadcastToPages, h0, hnothrow, ih htl, List.filter_cons]
      · simp only [Bool.not_eq_true] at h0
        simp [broadcastToPages, h0, ih htl, List.filter_cons]

/-- Witness for C9 (amended): with one healthy open page before the
throwing one, only the first page receives the notice and the exception
escapes. -/
theorem c9_broadcast_stops_at_throw_witness :
    broadcastToPages ([("a", ⟨true, false, ""⟩)]
        ++ ("b", PageConn.mk true true "boom")
          :: [("c", ⟨true, false, ""⟩)]) "hello"
      = (([("a", PageConn.mk true false "")].filter (fun e => e.2.isOpen)).map
          (fun e => (e.1, "hello")),
         some (PageConn.mk true true "boom").throwMessage) :=
  c9_broadcast_stops_at_throw [("a", ⟨true, false, ""⟩)] [("c", ⟨true, false, ""⟩)]
    "b" "hello" ⟨true, true, "boom"⟩ (by decide) rfl rfl

/-- Claim C10: the close handler deletes the Registry entry keyed by the
closing socket's remembered pageId, not by connection identity: after
socket A registers p and socket B re-registers the same p, the registry
maps p to B, yet A's close unconditionally removes the entry for p,
leaving B unregistered. -/
theorem c10_close_unregisters_by_pageId (st : WsServerState) (sockA sockB : Nat)
    (p : String) (hne : sockA ≠ sockB) :
    mapGet p (onPageConnected sockB p (onPageConnected sockA p st)).activePages
      = some sockB ∧
    mapGet p (onSocketClose sockA
        (onPageConnected sockB p (onPageConnected sockA p st))).activePages = none := by
  constructor
  · exact mapGet_mapSet_self _ _ _
  · unfold onSocketClose
    have hsock : mapGet sockA
        (onPageConnected sockB p (onPageConnected sockA p st)).sockPage = some p := by
      show mapGet sockA (mapSet sockB p (mapSet sockA p st.sockPage)) = some p
      rw [mapGet_mapSet_ne _ _ hne]
      exact mapGet_mapSet_self _ _ _
    rw [hsock]
    exact mapGet_mapDelete_self _ _

/-- Witness for C10: sockets 0 and 1 both register "p"; closing socket 0
removes the entry that pointed to socket 1. -/
theorem c10_close_unregisters_by_pageId_witness :
    mapGet "p" (onPageConnected 1 "p" (onPageConnected 0 "p" ⟨[], []⟩)).activePages
      = some 1 ∧
    mapGet "p" (onSocketClose 0
        (onPageConnected 1 "p" (onPageConnected 0 "p" ⟨[], []⟩))).activePages = none :=
  c10_close_unregisters_by_pageId ⟨[], []⟩ 0 1 "p" (by decide)

end PageControl
